import Mathlib

/-!
Verification of the NACE taxonomy parser (`app/tools/parser.py`).

Python strings are embedded as `List Char` (`Str`); fallible code paths
(Python exceptions such as `IndexError`) are embedded as `Except String`.
Python's ASCII whitespace set and ASCII digits are used; the taxonomy
documents the parser consumes are ASCII apart from the dash characters,
which are modelled explicitly.
-/

set_option maxHeartbeats 1000000

abbrev Str := List Char

def str (s : String) : Str := s.toList

/-- Python whitespace characters (as stripped by `str.strip()` and matched by `\s`). -/
def isPyWsCh (c : Char) : Bool :=
  c = ' ' || c = '\t' || c = '\n' || c = '\x0B' || c = '\x0C' || c = '\r'

/-- The three dash characters accepted by the section patterns: `–`, `—`, `-`. -/
def isDashCh (c : Char) : Bool := c = '–' || c = '—' || c = '-'

/-- Python `s.lstrip(chars)`: drop leading characters belonging to `chs`. -/
def stripLeft (chs : List Char) (cs : Str) : Str :=
  cs.dropWhile (fun c => chs.contains c)

/-- Python `s.rstrip(chars)`: drop trailing characters belonging to `chs`. -/
def stripRight (chs : List Char) (cs : Str) : Str :=
  ((cs.reverse).dropWhile (fun c => chs.contains c)).reverse

/-- Python `s.strip(chars)`. -/
def stripBoth (chs : List Char) (cs : Str) : Str := stripRight chs (stripLeft chs cs)

/-- Python `s.strip()` (no arguments): strip whitespace on both sides. -/
def pyStrip (cs : Str) : Str := stripBoth [' ', '\t', '\n', '\x0B', '\x0C', '\r'] cs

/-- Python `s.isdigit()` (ASCII digits). -/
def pyIsdigit (cs : Str) : Bool := !cs.isEmpty && cs.all Char.isDigit

/-- Python `text.split(c)` for a single-character separator. -/
def splitOnChar (c : Char) : Str → List Str
  | [] => [[]]
  | x :: xs =>
    if x = c then [] :: splitOnChar c xs
    else
      match splitOnChar c xs with
      | t :: ts => (x :: t) :: ts
      | [] => [[x]]

/-- Split at the first occurrence of the (nonempty) separator `sep`:
returns `(before, after)`, or `none` when `sep` does not occur. -/
def splitFirst (sep : Str) : Str → Option (Str × Str)
  | [] => if sep.isPrefixOf ([] : Str) then some ([], []) else none
  | x :: xs =>
    if sep.isPrefixOf (x :: xs) then some ([], (x :: xs).drop sep.length)
    else
      match splitFirst sep xs with
      | some (a, b) => some (x :: a, b)
      | none => none

/-- Python `sep_char.join(parts)` specialised to a one-character separator. -/
def joinWith (c : Char) : List Str → Str
  | [] => []
  | [x] => x
  | x :: y :: tl => x ++ c :: joinWith c (y :: tl)

/-- Python `needle in hay` (contiguous substring test). -/
def isSubstrOf (needle : Str) : Str → Bool
  | [] => needle.isEmpty
  | x :: xs => needle.isPrefixOf (x :: xs) || isSubstrOf needle xs

/-- Python `s.split(sep)[0]` for `sep = "."`: text before the first dot
(the whole string when there is no dot). -/
def beforeDot (cs : Str) : Str :=
  match splitFirst ['.'] cs with
  | some (a, _) => a
  | none => cs

/-- Python `line.split()[0]`: first whitespace-delimited token. -/
def firstTok (cs : Str) : Str :=
  (cs.dropWhile isPyWsCh).takeWhile (fun c => !(isPyWsCh c))

/-- Python `line.startswith(str_of_one_char)`. -/
def startsWithCh (c : Char) : Str → Bool
  | [] => false
  | x :: _ => x = c

/-- The optional `(?:######\s*)?` prefix of the division/group/class patterns:
consume a literal `######` followed by whitespace when present. -/
def stripHashes (cs : Str) : Str :=
  if cs.take 6 = str "######" then (cs.drop 6).dropWhile isPyWsCh else cs

/-- The `\s+(.+)$` tail of the division/group/class patterns, after the code
`code` has been matched: require at least one whitespace character, then a
nonempty remainder (regex backtracking lets `.+` absorb a final whitespace
character when the remainder is all whitespace). -/
def matchTail (code : Str) (rest : Str) : Option (Str × Str) :=
  match rest with
  | [] => none
  | c :: _ =>
    if isPyWsCh c then
      let nm := rest.dropWhile isPyWsCh
      if nm = [] then
        if 2 ≤ rest.length then some (code, [rest.getLastD ' ']) else none
      else some (code, nm)
    else none

/-- `re.match(r"^(?:######\s*)?(\d{2})\s+(.+)$", line)`: groups (code, name). -/
def matchDivision (line : Str) : Option (Str × Str) :=
  match stripHashes line with
  | a :: b :: rest =>
    if a.isDigit && b.isDigit then matchTail [a, b] rest else none
  | _ => none

/-- `re.match(r"^(?:######\s*)?(\d{2}\.\d{1})\s+(.+)$", line)`. -/
def matchGroup (line : Str) : Option (Str × Str) :=
  match stripHashes line with
  | a :: b :: p :: d :: rest =>
    if a.isDigit && b.isDigit && p = '.' && d.isDigit then
      matchTail [a, b, p, d] rest
    else none
  | _ => none

/-- `re.match(r"^(?:######\s*)?(\d{2}\.\d{2})\s+(.+)$", line)`. -/
def matchClass (line : Str) : Option (Str × Str) :=
  match stripHashes line with
  | a :: b :: p :: d :: e :: rest =>
    if a.isDigit && b.isDigit && p = '.' && d.isDigit && e.isDigit then
      matchTail [a, b, p, d, e] rest
    else none
  | _ => none

/-- The `[–—-]\s*(.+)$` tail of the section pattern: whitespace, then a
nonempty name (with the same backtracking rule as `matchTail`). -/
def afterDashName (rest : Str) : Option Str :=
  let nm := rest.dropWhile isPyWsCh
  if nm ≠ [] then some nm
  else if 1 ≤ rest.length then some [rest.getLastD ' '] else none

/-- `re.match(r"^# Section ([A-Z])\s*[–—-]\s*(.+)$", line)`: groups (code, name). -/
def matchSection (line : Str) : Option (Str × Str) :=
  if line.take 10 = str "# Section " then
    match line.drop 10 with
    | c :: rest =>
      if 'A' ≤ c ∧ c ≤ 'Z' then
        match rest.dropWhile isPyWsCh with
        | d :: rest2 =>
          if isDashCh d then (afterDashName rest2).map (fun nm => ([c], nm)) else none
        | [] => none
      else none
    | [] => none
  else none

/-- The body of the bounded description scan:
`desc_text.split(marker)[1].split("\n")[0].strip()`, evaluated only when
`marker` occurs in `w`. -/
def extractDesc (marker w : Str) : Str :=
  match splitFirst marker w with
  | none => []
  | some (_, tail1) =>
    let seg :=
      match splitFirst marker tail1 with
      | some (a, _) => a
      | none => tail1
    let seg2 :=
      match splitFirst ['\n'] seg with
      | some (a, _) => a
      | none => seg
    stripBoth [' ', '\t', '\n', '\x0B', '\x0C', '\r'] seg2

/-- The bounded forward scan `for j in range(i + 1, min(i + 10, len(lines)))`
with the 3-line window `" ".join(lines[j : j + 3])`: `rest` is the list of
lines after the heading line, `steps` the remaining window starts (9 at top
level). -/
def scanDescAux (marker : Str) : List Str → Nat → Str
  | _, 0 => []
  | [], _ => []
  | l0 :: tl, steps + 1 =>
    let w := joinWith ' ' (l0 :: tl.take 2)
    if isSubstrOf marker w then extractDesc marker w
    else scanDescAux marker tl steps

/-- The 3-line window starting `k` lines into `rest`, joined with spaces
(used to state the characterisation of `scanDescAux`). -/
def windowAt (rest : List Str) (k : Nat) : Str :=
  joinWith ' ' ((rest.drop k).take 3)

/-- An included/excluded activity entry: `{"activity": ..., "subactivities": [...]}`. -/
structure Activity where
  activity : Str
  subactivities : List Str
deriving DecidableEq, Repr

/-- One output dictionary of `parse_nace_activities`. -/
structure Record where
  section_code : Str
  section_name : Str
  section_description : Str
  division_code : Str
  division_name : Str
  division_description : Str
  group_code : Str
  group_name : Str
  group_description : Str
  class_code : Str
  class_name : Str
  class_description : Str
  included_activities : List Activity
  excluded_activities : List Activity
deriving DecidableEq, Repr

/-- The `mode` variable of the activity sub-parse (`None`/`"includes"`/`"excludes"`). -/
inductive PMode where
  | noneM
  | includes
  | excludes
deriving DecidableEq, Repr

/-- State of the activity sub-parse: `mode`, `current_activity`
(Python `None` and `""` are both falsy; both are embedded as `[]`),
and the two activity lists. -/
structure SubState where
  mode : PMode
  current : Str
  included : List Activity
  excluded : List Activity
deriving DecidableEq, Repr

/-- Python `marker in line`. -/
def hasMarker (marker nl : Str) : Bool := isSubstrOf marker nl

/-- The sub-parse early-exit test:
`(re.match(class_pattern, next_line) and len(next_line.split()[0]) == 5)
 or next_line.startswith("#")`. -/
def isBreakLine (nl : Str) : Bool :=
  ((matchClass nl).isSome && (firstTok nl).length == 5) || startsWithCh '#' nl

/-- Append a subactivity to the last element of a nonempty activity list
(Python `lst[-1]["subactivities"].append(s)`). -/
def addSubLast (s : Str) : List Activity → List Activity
  | [] => []
  | [a] => [{ a with subactivities := a.subactivities ++ [s] }]
  | a :: b :: tl => a :: addSubLast s (b :: tl)

/-- The `if mode:` block of the sub-parse, acting on one (stripped) line.
Accessing `[-1]` of an empty list is Python's `IndexError`. -/
def modeAppend (st : SubState) (nl : Str) : Except String SubState :=
  match st.mode with
  | .noneM => .ok st
  | m =>
    if startsWithCh '-' nl then
      let ca := stripRight [':'] (stripLeft ['-', ' '] nl)
      let entry : Activity := ⟨ca, []⟩
      if m = .includes then
        .ok { st with current := ca, included := st.included ++ [entry] }
      else
        .ok { st with current := ca, excluded := st.excluded ++ [entry] }
    else if startsWithCh '*' nl ∧ st.current ≠ [] then
      let s := pyStrip (stripLeft ['*', ' '] nl)
      if m = .includes then
        match st.included with
        | [] => .error "IndexError: list index out of range"
        | _ => .ok { st with included := addSubLast s st.included }
      else
        match st.excluded with
        | [] => .error "IndexError: list index out of range"
        | _ => .ok { st with excluded := addSubLast s st.excluded }
    else .ok st

/-- One iteration of the sub-parse on a stripped, non-break line: the marker
checks come first; an empty line is then skipped (`continue`); every other
line reaches the `if mode:` block. -/
def subStep (st : SubState) (nl : Str) : Except String SubState :=
  if hasMarker (str "This class includes:") nl then
    modeAppend { st with mode := .includes } nl
  else if hasMarker (str "This class excludes:") nl then
    modeAppend { st with mode := .excludes } nl
  else if nl = [] then .ok st
  else modeAppend st nl

/-- The sub-parse loop `while j < len(lines) and j < i + 50`: at most 49
lines after the class heading. -/
def subLoop : List Str → Nat → SubState → Except String SubState
  | _, 0, st => .ok st
  | [], _, st => .ok st
  | l :: tl, steps + 1, st =>
    let nl := pyStrip l
    if isBreakLine nl then .ok st
    else
      match subStep st nl with
      | .error e => .error e
      | .ok st2 => subLoop tl steps st2

/-- Current section/division/group ancestor state: `{code, name, description}`. -/
structure HeadInfo where
  code : Str
  name : Str
  description : Str
deriving DecidableEq, Repr

/-- The parser's mutable state: ancestors, the seen-set of class codes, and
the accumulated output list. -/
structure PState where
  sec : HeadInfo
  division : HeadInfo
  group : HeadInfo
  processed : List Str
  activities : List Record
deriving DecidableEq, Repr

def initState : PState := ⟨⟨[], [], []⟩, ⟨[], [], []⟩, ⟨[], [], []⟩, [], []⟩

/-- Tagged outcome of matching one stripped line against the four heading
patterns in the source's `if`/`elif` order. -/
inductive LineKind where
  | blank
  | sectionHead (c n : Str)
  | divisionHead (c n : Str)
  | groupHead (c n : Str)
  | classHead (c n : Str)
  | other
deriving DecidableEq, Repr

def classifyLine (line : Str) : LineKind :=
  if line = [] ∨ pyIsdigit line = true then .blank
  else
    match matchSection line with
    | some (c, n) => .sectionHead c n
    | none =>
      match matchDivision line with
      | some (c, n) => .divisionHead c n
      | none =>
        match matchGroup line with
        | some (c, n) => .groupHead c n
        | none =>
          match matchClass line with
          | some (c, n) => .classHead c n
          | none => .other

/-- The division/group repair on a class match: reset current division (resp.
group) from the class code's prefixes when they disagree. -/
def resetAncestors (st : PState) (code : Str) : PState :=
  let dcode := beforeDot code
  let gcode := code.take 4
  let st1 := if dcode ≠ st.division.code then { st with division := ⟨dcode, [], []⟩ } else st
  if gcode ≠ st1.group.code then { st1 with group := ⟨gcode, [], []⟩ } else st1

/-- The record constructed on a class emission (`class_description` stays empty). -/
def mkRecord (st : PState) (code name : Str) (sub : SubState) : Record :=
  { section_code := st.sec.code
    section_name := st.sec.name
    section_description := st.sec.description
    division_code := beforeDot code
    division_name := st.division.name
    division_description := st.division.description
    group_code := code.take 4
    group_name := st.group.name
    group_description := st.group.description
    class_code := code
    class_name := name
    class_description := []
    included_activities := sub.included
    excluded_activities := sub.excluded }

/-- Processing of one line of the main loop; `rest` is the list of lines
after the current one (used by the lookahead scans). -/
def lineStep (line : Str) (rest : List Str) (st : PState) : Except String PState :=
  match classifyLine line with
  | .blank => .ok st
  | .sectionHead c n =>
    .ok { st with sec := ⟨c, n, scanDescAux (str "This section includes") rest 9⟩ }
  | .divisionHead c n =>
    if c.length = 2 ∧ pyIsdigit c = true then
      .ok { st with division := ⟨c, n, scanDescAux (str "This division includes") rest 9⟩ }
    else .ok st
  | .groupHead c n =>
    if beforeDot c = st.division.code then
      .ok { st with group := ⟨c, n, scanDescAux (str "This group includes") rest 9⟩ }
    else .ok st
  | .classHead c n =>
    if c.length = 5 ∧ c.getD 2 ' ' = '.' ∧ c ∉ st.processed then
      if (resetAncestors st c).sec.code = [] then .ok (resetAncestors st c)
      else
        match subLoop rest 49 ⟨.noneM, [], [], []⟩ with
        | .error e => .error e
        | .ok sub =>
          .ok { resetAncestors st c with
                activities := (resetAncestors st c).activities ++
                  [mkRecord (resetAncestors st c) c n sub]
                processed := (resetAncestors st c).processed ++ [c] }
    else .ok st
  | .other => .ok st

/-- The main `while i < len(lines)` loop. -/
def mainLoop : List Str → PState → Except String PState
  | [], st => .ok st
  | l :: rest, st =>
    match lineStep (pyStrip l) rest st with
    | .error e => .error e
    | .ok st2 => mainLoop rest st2

/-- Python string `<=` (code-point lexicographic order). -/
def strLe : Str → Str → Bool
  | [], _ => true
  | _ :: _, [] => false
  | x :: xs, y :: ys => if x < y then true else if x = y then strLe xs ys else false

/-- Order on records used by `activities.sort(key=lambda x: x["class_code"])`. -/
def recLe (a b : Record) : Prop := strLe a.class_code b.class_code = true

instance : DecidableRel recLe :=
  fun a b => inferInstanceAs (Decidable (strLe a.class_code b.class_code = true))

def sortRecords (l : List Record) : List Record := List.insertionSort recLe l

/-- `parse_nace_activities(text)`; an uncaught Python exception is `Except.error`. -/
def parse_nace_activities (text : String) : Except String (List Record) :=
  match mainLoop (splitOnChar '\n' text.toList) initState with
  | .error e => .error e
  | .ok st => .ok (sortRecords st.activities)

/-- `validate_nace_activities(activities)`: the unique-code sets are computed
for the printed report only (I/O, not modelled); the return value is the
single count comparison. -/
def validate_nace_activities (activities : List Record) : Bool :=
  let total_classes := activities.length
  let _sections := (activities.map Record.section_code).dedup
  let _divisions := (activities.map Record.division_code).dedup
  let _groups := (activities.map Record.group_code).dedup
  let _classes := (activities.map Record.class_code).dedup
  total_classes == 615

/-- One output entry of `split_nace_by_sections`. -/
structure SectionSeg where
  name : Str
  content : Str
deriving DecidableEq, Repr

/-- `re.match(r"^# Section [A-Z][ \t]*[–—-]", line)` (prefix match, no groups). -/
def isHeadingLine (cs : Str) : Bool :=
  if cs.take 10 = str "# Section " then
    match cs.drop 10 with
    | c :: rest =>
      ('A' ≤ c && c ≤ 'Z') &&
        (match rest.dropWhile (fun x => x = ' ' || x = '\t') with
         | d :: _ => isDashCh d
         | [] => false)
    | [] => false
  else false

/-- Python `line.split(sep)[0]` for a single-character separator. -/
def beforeFirstCh (c : Char) (cs : Str) : Str := cs.takeWhile (fun x => x ≠ c)

/-- The `for separator in ['–', '—', '-']` loop of `split_nace_by_sections`:
the name derived from the first separator (in that order) occurring in the
line, or `none` when no separator occurs (in which case the Python loop
leaves `current_section` unchanged). -/
def sectionNameOf? (line : Str) : Option Str :=
  if line.contains '–' then some (pyStrip (beforeFirstCh '–' line))
  else if line.contains '—' then some (pyStrip (beforeFirstCh '—' line))
  else if line.contains '-' then some (pyStrip (beforeFirstCh '-' line))
  else none

/-- The line fold of `split_nace_by_sections`. `curName` is Python's
`current_section` (`none` = `None`; a derived name always starts with `#`,
hence is never the falsy `""`), `curContent` is `current_content`. -/
def segLoop : List Str → Option Str → List Str → List SectionSeg
  | [], curName, curContent =>
    match curName with
    | some nm => if curContent.isEmpty then [] else [⟨nm, joinWith '\n' curContent⟩]
    | none => []
  | l :: rest, curName, curContent =>
    if isHeadingLine (pyStrip l) then
      (match curName with
       | some nm => [⟨nm, joinWith '\n' curContent⟩]
       | none => ([] : List SectionSeg)) ++
        segLoop rest
          (match sectionNameOf? (pyStrip l) with
           | some nm => some nm
           | none => curName)
          [pyStrip l]
    else
      match curName with
      | some _ => segLoop rest curName (curContent ++ [pyStrip l])
      | none => segLoop rest curName curContent

def split_nace_by_sections (text : String) : List SectionSeg :=
  segLoop (splitOnChar '\n' text.toList) none []

/-- Reference segmenter for the amended C9 claim: on the stripped lines,
chunks start at each heading line and run to the next heading (exclusive);
the name is derived from the heading by `sectionNameOf?`. -/
def chunkSpec : List Str → List SectionSeg
  | [] => []
  | h :: rest =>
    ⟨(sectionNameOf? h).getD [], joinWith '\n' (h :: rest.takeWhile (fun l => !isHeadingLine l))⟩
      :: chunkSpec (rest.dropWhile (fun l => !isHeadingLine l))
termination_by l => l.length
decreasing_by
  simp only [List.length_cons]
  exact Nat.lt_succ_of_le (List.dropWhile_sublist _).length_le

/-- Invariant of the main parse loop, carrying the per-record properties of
claims C3, C4 and C5. -/
def ParseInv (st : PState) : Prop :=
  st.activities.Pairwise (fun a b => a.class_code ≠ b.class_code) ∧
  (∀ r ∈ st.activities, r.class_code ∈ st.processed) ∧
  (∀ r ∈ st.activities, r.division_code <+: r.group_code ∧ r.class_code.take 4 = r.group_code) ∧
  (∀ r ∈ st.activities, r.section_code ≠ [])

/-- Shared concrete input for the witnesses: one section, one class. -/
def sampleText : String := "# Section A – Ag\n01.11 Wheat"

/-- The single record `parse_nace_activities sampleText` produces. -/
def sampleRec : Record :=
  ⟨str "A", str "Ag", [], str "01", [], [], str "01.1", [], [], str "01.11", str "Wheat", [],
    [], []⟩

theorem exceptOkInj {ε α : Type} {a b : α} (h : (Except.ok a : Except ε α) = .ok b) : a = b := by
  injection h

theorem resetAncestors_activities (st : PState) (code : Str) :
    (resetAncestors st code).activities = st.activities := by
  simp only [resetAncestors]
  split <;> split <;> rfl

theorem resetAncestors_processed (st : PState) (code : Str) :
    (resetAncestors st code).processed = st.processed := by
  simp only [resetAncestors]
  split <;> split <;> rfl

theorem resetAncestors_sec (st : PState) (code : Str) :
    (resetAncestors st code).sec = st.sec := by
  simp only [resetAncestors]
  split <;> split <;> rfl

theorem resetAncestors_division_code (st : PState) (code : Str) :
    (resetAncestors st code).division.code = beforeDot code := by
  simp only [resetAncestors]
  split <;> split <;> simp_all

theorem resetAncestors_group_code (st : PState) (code : Str) :
    (resetAncestors st code).group.code = code.take 4 := by
  simp only [resetAncestors]
  split <;> split <;> simp_all

theorem beforeDot_cons_ne (x : Char) (xs : Str) (hx : ¬ x = '.') :
    beforeDot (x :: xs) = x :: beforeDot xs := by
  simp only [beforeDot, splitFirst, List.isPrefixOf, Bool.and_true]
  rw [if_neg (by simp [beq_iff_eq, Ne.symm hx])]
  cases h : splitFirst ['.'] xs with
  | none => rfl
  | some ab => cases ab; rfl

theorem beforeDot_cons_dot (xs : Str) : beforeDot ('.' :: xs) = [] := by
  simp only [beforeDot, splitFirst, List.isPrefixOf]
  rw [if_pos (by simp)]

theorem beforeDot_isPrefix_take4 (c : Str) (h5 : c.length = 5) (hdot : c.getD 2 ' ' = '.') :
    beforeDot c <+: c.take 4 := by
  rcases c with _ | ⟨a, _ | ⟨b, _ | ⟨p, _ | ⟨d, _ | ⟨e, _ | ⟨f, t⟩⟩⟩⟩⟩⟩ <;> simp_all
  subst hdot
  by_cases ha : a = '.'
  · subst ha
    simp [beforeDot_cons_dot]
  · rw [beforeDot_cons_ne a _ ha]
    by_cases hb : b = '.'
    · subst hb
      rw [beforeDot_cons_dot]
      exact ⟨['.', '.', d], rfl⟩
    · rw [beforeDot_cons_ne b _ hb, beforeDot_cons_dot]
      exact ⟨['.', d], rfl⟩

theorem initState_inv : ParseInv initState := by
  simp [ParseInv, initState]


theorem lineStep_inv (line : Str) (rest : List Str) (st st2 : PState)
    (hinv : ParseInv st) (h : lineStep line rest st = .ok st2) : ParseInv st2 := by
  unfold lineStep at h
  split at h
  · obtain rfl := exceptOkInj h; exact hinv
  · obtain rfl := exceptOkInj h; exact hinv
  · split at h <;> (obtain rfl := exceptOkInj h; exact hinv)
  · split at h <;> (obtain rfl := exceptOkInj h; exact hinv)
  · rename_i c n hcl
    split at h
    · rename_i hg
      by_cases hsec : (resetAncestors st c).sec.code = []
      · rw [if_pos hsec] at h
        obtain rfl := exceptOkInj h
        unfold ParseInv
        rw [resetAncestors_activities, resetAncestors_processed]
        exact hinv
      · rw [if_neg hsec] at h
        cases hsub : subLoop rest 49 ⟨.noneM, [], [], []⟩ <;> rw [hsub] at h
        · exact absurd h (by simp)
        · rename_i sub
          obtain rfl := exceptOkInj h
          obtain ⟨hpw, hmem, hhier, hsec4⟩ := hinv
          have hact : ({ resetAncestors st c with
              activities := (resetAncestors st c).activities ++
                [mkRecord (resetAncestors st c) c n sub],
              processed := (resetAncestors st c).processed ++ [c] } : PState).activities =
              st.activities ++ [mkRecord (resetAncestors st c) c n sub] := by
            show (resetAncestors st c).activities ++ _ = _
            rw [resetAncestors_activities]
          have hproc : ({ resetAncestors st c with
              activities := (resetAncestors st c).activities ++
                [mkRecord (resetAncestors st c) c n sub],
              processed := (resetAncestors st c).processed ++ [c] } : PState).processed =
              st.processed ++ [c] := by
            show (resetAncestors st c).processed ++ _ = _
            rw [resetAncestors_processed]
          refine ⟨?_, ?_, ?_, ?_⟩
          · rw [hact, List.pairwise_append]
            refine ⟨hpw, by simp, ?_⟩
            intro a ha b hb
            simp only [List.mem_singleton] at hb
            subst hb
            show a.class_code ≠ c
            intro heq
            exact hg.2.2 (heq ▸ hmem a ha)
          · intro r hr
            rw [hact] at hr
            rw [hproc]
            rcases List.mem_append.mp hr with hr' | hr'
            · exact List.mem_append_left _ (hmem r hr')
            · simp only [List.mem_singleton] at hr'
              subst hr'
              exact List.mem_append_right _ (by simp [mkRecord])
          · intro r hr
            rw [hact] at hr
            rcases List.mem_append.mp hr with hr' | hr'
            · exact hhier r hr'
            · simp only [List.mem_singleton] at hr'
              subst hr'
              exact ⟨beforeDot_isPrefix_take4 c hg.1 hg.2.1, rfl⟩
          · intro r hr
            rw [hact] at hr
            rcases List.mem_append.mp hr with hr' | hr'
            · exact hsec4 r hr'
            · simp only [List.mem_singleton] at hr'
              subst hr'
              show (resetAncestors st c).sec.code ≠ []
              exact hsec
    · obtain rfl := exceptOkInj h; exact hinv
  · obtain rfl := exceptOkInj h; exact hinv

theorem mainLoop_inv : ∀ (ls : List Str) (st st2 : PState),
    ParseInv st → mainLoop ls st = .ok st2 → ParseInv st2 := by
  intro ls
  induction ls with
  | nil =>
    intro st st2 hinv h
    obtain rfl := exceptOkInj h
    exact hinv
  | cons l rest ih =>
    intro st st2 hinv h
    unfold mainLoop at h
    cases hstep : lineStep (pyStrip l) rest st <;> rw [hstep] at h
    · exact absurd h (by simp)
    · exact ih _ _ (lineStep_inv _ _ _ _ hinv hstep) h

theorem parse_ok_shape (text : String) (recs : List Record)
    (h : parse_nace_activities text = .ok recs) :
    ∃ st : PState, mainLoop (splitOnChar '\n' text.toList) initState = .ok st ∧
      recs = sortRecords st.activities ∧ ParseInv st := by
  unfold parse_nace_activities at h
  cases hm : mainLoop (splitOnChar '\n' text.toList) initState <;> rw [hm] at h
  · exact absurd h (by simp)
  · exact ⟨_, rfl, (exceptOkInj h).symm, mainLoop_inv _ _ _ initState_inv hm⟩

theorem sortRecords_perm (l : List Record) : List.Perm (sortRecords l) l :=
  List.perm_insertionSort recLe l

theorem strLe_total : ∀ a b : Str, strLe a b = true ∨ strLe b a = true := by
  intro a
  induction a with
  | nil => intro b; left; rfl
  | cons x xs ih =>
    intro b
    cases b with
    | nil => right; rfl
    | cons y ys =>
      rcases lt_trichotomy x y with hlt | heq | hgt
      · left; simp [strLe, hlt]
      · subst heq
        rcases ih ys with h | h
        · left; simp [strLe, lt_irrefl, h]
        · right; simp [strLe, lt_irrefl, h]
      · right; simp [strLe, hgt]

theorem strLe_trans : ∀ a b c : Str, strLe a b = true → strLe b c = true → strLe a c = true := by
  intro a
  induction a with
  | nil => intro b c _ _; rfl
  | cons x xs ih =>
    intro b c hab hbc
    cases b with
    | nil => simp [strLe] at hab
    | cons y ys =>
      cases c with
      | nil => simp [strLe] at hbc
      | cons z zs =>
        simp only [strLe] at hab hbc ⊢
        by_cases hxy : x < y
        · rw [if_pos hxy] at hab
          by_cases hyz : y < z
          · rw [if_pos (lt_trans hxy hyz)]
          · rw [if_neg hyz] at hbc
            by_cases hyz2 : y = z
            · subst hyz2; rw [if_pos hxy]
            · rw [if_neg hyz2] at hbc; exact absurd hbc (by simp)
        · rw [if_neg hxy] at hab
          by_cases hxy2 : x = y
          · subst hxy2
            rw [if_pos rfl] at hab
            by_cases hxz : x < z
            · rw [if_pos hxz]
            · rw [if_neg hxz] at hbc ⊢
              by_cases hxz2 : x = z
              · subst hxz2
                rw [if_pos rfl] at hbc ⊢
                exact ih ys zs hab hbc
              · rw [if_neg hxz2] at hbc; exact absurd hbc (by simp)
          · rw [if_neg hxy2] at hab; exact absurd hab (by simp)

/-- C1: the claim states that `parse_nace_activities` never raises, in
particular on an input where a `*`-prefixed line follows a
"This class excludes:" mode switch while the excluded-activities list is
still empty. The code violates this: `current_activity` is not reset on the
mode switch, so the `*` line passes the `and current_activity` guard and
`excluded_activities[-1]` raises `IndexError` on the empty list. This
theorem evaluates the parser at that failing input. -/
theorem C1_parser_raises_on_dangling_excluded_subactivity :
    parse_nace_activities
      "# Section A – Ag\n01.11 Cereals\nThis class includes:\n- Growing of wheat\nThis class excludes:\n* stray sub" =
      .error "IndexError: list index out of range" := rfl

/-- C2: the claim states that a `*`-prefixed line appearing when no activity
has yet been appended in the current mode is dropped and never causes any
other effect. The code violates the "never causes any other effect" part:
with `current_activity` still set from the includes mode, a `*` line in
excludes mode with an empty excluded list raises `IndexError` instead of
being dropped. This theorem evaluates the parser at that failing input. -/
theorem C2_dangling_subactivity_not_dropped :
    parse_nace_activities
      "# Section B – Fish\n03.11 Marine fishing\nThis class includes:\n- catching fish\nThis class excludes:\n* dangling sub" =
      .error "IndexError: list index out of range" := rfl

/-- C3: for every input text, no two records in the (successful) output of
`parse_nace_activities` share the same `class_code`: emission is guarded by
the `processed_codes` seen-set, to which every emitted code is added. -/
theorem C3_class_codes_unique (text : String) (recs : List Record)
    (h : parse_nace_activities text = .ok recs) :
    recs.Pairwise (fun a b => a.class_code ≠ b.class_code) := by
  obtain ⟨st, _, rfl, hinv⟩ := parse_ok_shape text recs h
  exact ((sortRecords_perm st.activities).pairwise_iff
    (fun {x y} hxy => Ne.symm hxy)).mpr hinv.1

theorem C3_witness :
    ([sampleRec] : List Record).Pairwise (fun a b => a.class_code ≠ b.class_code) :=
  C3_class_codes_unique sampleText [sampleRec] (by rfl)

/-- C4: every output record's `group_code` starts with its `division_code`,
and the first 4 characters of its `class_code` equal its `group_code`
(both fields are derived from the class code at emission). -/
theorem C4_hierarchy_consistent (text : String) (recs : List Record)
    (h : parse_nace_activities text = .ok recs) :
    ∀ r ∈ recs, r.division_code <+: r.group_code ∧ r.class_code.take 4 = r.group_code := by
  obtain ⟨st, _, rfl, hinv⟩ := parse_ok_shape text recs h
  intro r hr
  exact hinv.2.2.1 r ((sortRecords_perm st.activities).mem_iff.mp hr)

theorem C4_witness :
    sampleRec.division_code <+: sampleRec.group_code ∧
      sampleRec.class_code.take 4 = sampleRec.group_code :=
  C4_hierarchy_consistent sampleText [sampleRec] (by rfl) sampleRec (by simp)

/-- C6: the (successful) output of `parse_nace_activities` is sorted
non-decreasing by `class_code` in Python's lexicographic string order
(`recLe`), independently of document order, because the whole list is
re-sorted at the end. -/
theorem C6_output_sorted (text : String) (recs : List Record)
    (h : parse_nace_activities text = .ok recs) :
    recs.Pairwise recLe := by
  obtain ⟨st, _, rfl, _⟩ := parse_ok_shape text recs h
  haveI : IsTotal Record recLe := ⟨fun a b => strLe_total a.class_code b.class_code⟩
  haveI : IsTrans Record recLe :=
    ⟨fun a b c hab hbc => strLe_trans a.class_code b.class_code c.class_code hab hbc⟩
  exact List.sorted_insertionSort recLe st.activities

theorem C6_witness : ([sampleRec] : List Record).Pairwise recLe :=
  C6_output_sorted sampleText [sampleRec] (by rfl)

/-- C8: `validate_nace_activities` returns `true` iff the record count is
exactly 615; the uniqueness counts at section/division/group level are
computed only for the printed report and cannot influence the result. -/
theorem C8_validate_is_count_check (activities : List Record) :
    validate_nace_activities activities = true ↔ activities.length = 615 := by
  simp [validate_nace_activities]

theorem classify_no_section (line : Str) (hm : matchSection line = none) (c n : Str)
    (h : classifyLine line = LineKind.sectionHead c n) : False := by
  unfold classifyLine at h
  split at h <;> simp_all
  split at h
  (try simp_all)
  split at h
  (try simp_all)
  split at h <;> simp_all

theorem lineStep_no_sec_pres (line : Str) (rest : List Str) (st st1 : PState)
    (hm : matchSection line = none) (hsec : st.sec.code = []) (hact : st.activities = [])
    (h : lineStep line rest st = .ok st1) : st1.sec.code = [] ∧ st1.activities = [] := by
  unfold lineStep at h
  split at h
  · obtain rfl := exceptOkInj h; exact ⟨hsec, hact⟩
  · rename_i c n hcl
    exact (classify_no_section line hm c n hcl).elim
  · split at h <;> (obtain rfl := exceptOkInj h; exact ⟨hsec, hact⟩)
  · split at h <;> (obtain rfl := exceptOkInj h; exact ⟨hsec, hact⟩)
  · rename_i c n hcl
    split at h
    · rename_i hg
      have hsecR : (resetAncestors st c).sec.code = [] := by
        rw [resetAncestors_sec]; exact hsec
      rw [if_pos hsecR] at h
      obtain rfl := exceptOkInj h
      refine ⟨hsecR, ?_⟩
      rw [resetAncestors_activities]; exact hact
    · obtain rfl := exceptOkInj h; exact ⟨hsec, hact⟩
  · obtain rfl := exceptOkInj h; exact ⟨hsec, hact⟩

theorem lineStep_no_sec_ok (line : Str) (rest : List Str) (st : PState) (e : String)
    (_hm : matchSection line = none) (hsec : st.sec.code = [])
    (h : lineStep line rest st = .error e) : False := by
  unfold lineStep at h
  split at h
  · exact absurd h (by simp)
  · exact absurd h (by simp)
  · split at h <;> exact absurd h (by simp)
  · split at h <;> exact absurd h (by simp)
  · rename_i c n hcl
    split at h
    · rename_i hg
      have hsecR : (resetAncestors st c).sec.code = [] := by
        rw [resetAncestors_sec]; exact hsec
      rw [if_pos hsecR] at h
      exact absurd h (by simp)
    · exact absurd h (by simp)
  · exact absurd h (by simp)

theorem mainLoop_no_sec : ∀ (ls : List Str) (st : PState),
    st.sec.code = [] → st.activities = [] →
    (∀ l ∈ ls, matchSection (pyStrip l) = none) →
    ∃ st2, mainLoop ls st = .ok st2 ∧ st2.activities = [] := by
  intro ls
  induction ls with
  | nil =>
    intro st _ hact _
    exact ⟨st, rfl, hact⟩
  | cons l rest ih =>
    intro st hsec hact hls
    have hm : matchSection (pyStrip l) = none := hls l (List.mem_cons_self l rest)
    obtain ⟨st1, hstep, hsec1, hact1⟩ :
        ∃ st1, lineStep (pyStrip l) rest st = .ok st1 ∧
          st1.sec.code = [] ∧ st1.activities = [] := by
      cases hstep : lineStep (pyStrip l) rest st with
      | error e => exact (lineStep_no_sec_ok _ _ _ _ hm hsec hstep).elim
      | ok st1 =>
        obtain ⟨h1, h2⟩ := lineStep_no_sec_pres _ _ _ _ hm hsec hact hstep
        exact ⟨st1, rfl, h1, h2⟩
    obtain ⟨st2, hloop, hact2⟩ :=
      ih st1 hsec1 hact1 (fun l' hl' => hls l' (List.mem_cons_of_mem _ hl'))
    refine ⟨st2, ?_, hact2⟩
    unfold mainLoop
    rw [hstep]
    exact hloop

/-- C5: a record is emitted only under an established section: every output
record carries a nonempty `section_code`, and an input in which no line
matches the section pattern yields no records at all (orphan class headings
are dropped silently). -/
theorem C5_classes_require_section (text : String) (recs : List Record)
    (h : parse_nace_activities text = .ok recs) :
    (∀ r ∈ recs, r.section_code ≠ []) ∧
    ((∀ l ∈ splitOnChar '\n' text.toList, matchSection (pyStrip l) = none) → recs = []) := by
  obtain ⟨st, hm, rfl, hinv⟩ := parse_ok_shape text recs h
  constructor
  · intro r hr
    exact hinv.2.2.2 r ((sortRecords_perm st.activities).mem_iff.mp hr)
  · intro hnosec
    obtain ⟨st2, hloop, hact⟩ :=
      mainLoop_no_sec (splitOnChar '\n' text.toList) initState rfl rfl hnosec
    rw [hm] at hloop
    obtain rfl := exceptOkInj hloop
    rw [hact]
    rfl

theorem C5_witness :
    (∀ r ∈ ([] : List Record), r.section_code ≠ []) ∧
    ((∀ l ∈ splitOnChar '\n' (String.toList "01.11 Wheat"), matchSection (pyStrip l) = none) →
      ([] : List Record) = []) :=
  C5_classes_require_section "01.11 Wheat" [] (by rfl)

theorem lineStep_eq_classHead (line : Str) (rest : List Str) (st : PState) (c n : Str)
    (hcl : classifyLine line = .classHead c n) :
    lineStep line rest st =
      (if c.length = 5 ∧ c.getD 2 ' ' = '.' ∧ c ∉ st.processed then
        if (resetAncestors st c).sec.code = [] then Except.ok (resetAncestors st c)
        else
          match subLoop rest 49 ⟨.noneM, [], [], []⟩ with
          | .error e => .error e
          | .ok sub =>
            .ok { resetAncestors st c with
                  activities := (resetAncestors st c).activities ++
                    [mkRecord (resetAncestors st c) c n sub]
                  processed := (resetAncestors st c).processed ++ [c] }
      else .ok st) := by
  unfold lineStep
  rw [hcl]

/-- C10: when a class heading is processed while no section is established,
the class code is not added to the processed set and no record is emitted,
but the current division and group are still reset from the class code's
prefixes; and a later occurrence of the same class heading after a section
heading is emitted (shown on a concrete document where the same `01.11`
heading occurs before and after the section heading and yields exactly one
record). -/
theorem C10_skip_emission_frame :
    (∀ (line : Str) (rest : List Str) (st : PState) (c n : Str),
      classifyLine line = .classHead c n →
      c.length = 5 → c.getD 2 ' ' = '.' → c ∉ st.processed →
      st.sec.code = [] →
      ∃ st2, lineStep line rest st = .ok st2 ∧
        st2.processed = st.processed ∧ st2.activities = st.activities ∧
        st2.division.code = beforeDot c ∧ st2.group.code = c.take 4) ∧
    parse_nace_activities "01.11 Wheat\n# Section A – Ag\n01.11 Wheat" =
      .ok [⟨str "A", str "Ag", [], str "01", [], [], str "01.1", [], [],
        str "01.11", str "Wheat", [], [], []⟩] := by
  constructor
  · intro line rest st c n hcl h5 hdot hproc hsec
    refine ⟨resetAncestors st c, ?_, resetAncestors_processed st c,
      resetAncestors_activities st c, resetAncestors_division_code st c,
      resetAncestors_group_code st c⟩
    rw [lineStep_eq_classHead line rest st c n hcl]
    rw [if_pos ⟨h5, hdot, hproc⟩]
    have hsecR : (resetAncestors st c).sec.code = [] := by
      rw [resetAncestors_sec]; exact hsec
    rw [if_pos hsecR]
  · rfl

theorem C10_witness :
    ∃ st2, lineStep (str "01.11 Wheat") [] initState = .ok st2 ∧
      st2.processed = initState.processed ∧ st2.activities = initState.activities ∧
      st2.division.code = beforeDot (str "01.11") ∧ st2.group.code = (str "01.11").take 4 :=
  C10_skip_emission_frame.1 (str "01.11 Wheat") [] initState (str "01.11") (str "Wheat")
    (by rfl) (by rfl) (by rfl) (by decide) (by rfl)

theorem windowAt_succ_cons (l0 : Str) (tl : List Str) (k : Nat) :
    windowAt (l0 :: tl) (k + 1) = windowAt tl k := rfl

theorem isSubstrOf_nil_false (marker : Str) (hm : marker ≠ []) :
    isSubstrOf marker [] = false := by
  cases marker with
  | nil => exact absurd rfl hm
  | cons m ms => rfl

theorem scanDescAux_characterisation (marker : Str) : ∀ (n : Nat) (rest : List Str),
    marker ≠ [] →
    scanDescAux marker rest n =
      (match (List.range n).find? (fun k => isSubstrOf marker (windowAt rest k)) with
      | some k => extractDesc marker (windowAt rest k)
      | none => []) := by
  intro n
  induction n with
  | zero => intro rest _; rw [List.range_zero]; cases rest <;> rfl
  | succ n ih =>
    intro rest hm
    cases rest with
    | nil =>
      have hnone : (List.range (n + 1)).find?
          (fun k => isSubstrOf marker (windowAt ([] : List Str) k)) = none := by
        rw [List.find?_eq_none]
        intro k _
        simp [windowAt, joinWith, isSubstrOf_nil_false marker hm]
      rw [hnone]
      rfl
    | cons l0 tl =>
      rw [List.range_succ_eq_map, List.find?_cons]
      by_cases h0 : isSubstrOf marker (windowAt (l0 :: tl) 0) = true
      · rw [h0]
        show (if isSubstrOf marker (joinWith ' ' (l0 :: tl.take 2)) then
            extractDesc marker (joinWith ' ' (l0 :: tl.take 2))
          else scanDescAux marker tl n) = _
        rw [show joinWith ' ' (l0 :: tl.take 2) = windowAt (l0 :: tl) 0 from rfl, h0]
        rfl
      · rw [Bool.not_eq_true] at h0
        rw [h0]
        show (if isSubstrOf marker (joinWith ' ' (l0 :: tl.take 2)) then
            extractDesc marker (joinWith ' ' (l0 :: tl.take 2))
          else scanDescAux marker tl n) = _
        rw [show joinWith ' ' (l0 :: tl.take 2) = windowAt (l0 :: tl) 0 from rfl, h0]
        rw [if_neg (by simp)]
        rw [ih tl hm]
        rw [List.find?_map]
        have hcomp : ((fun k => isSubstrOf marker (windowAt (l0 :: tl) k)) ∘ Nat.succ) =
            (fun k => isSubstrOf marker (windowAt tl k)) := by
          funext k
          exact congrArg (isSubstrOf marker) (windowAt_succ_cons l0 tl k)
        rw [hcomp]
        cases hfind : (List.range n).find? (fun k => isSubstrOf marker (windowAt tl k)) with
        | none => rfl
        | some j =>
          show extractDesc marker (windowAt tl j) = extractDesc marker (windowAt (l0 :: tl) (j + 1))
          rw [windowAt_succ_cons]

theorem lineStep_eq_sectionHead (line : Str) (rest : List Str) (st : PState) (c n : Str)
    (hcl : classifyLine line = .sectionHead c n) :
    lineStep line rest st =
      .ok { st with sec := ⟨c, n, scanDescAux (str "This section includes") rest 9⟩ } := by
  unfold lineStep
  rw [hcl]

/-- C7 counterexample: the claim says the recorded section description is
the text following the marker up to the next newline, with text on lines
after the marker's own line not included — which predicts the empty
description here (nothing follows "This section includes" on its own line).
The code instead joins the 3-line window with spaces before splitting, so
the split at a newline is vacuous and the next line's text "extra words" is
recorded. -/
theorem C7_counterexample :
    (parse_nace_activities
        "# Section A – Ag\nThis section includes\nextra words\n\n\n01.11 Wheat").map
      (List.map Record.section_description) = .ok [str "extra words"] ∧
    str "extra words" ≠ ([] : Str) := ⟨rfl, by decide⟩

/-- C7 (amended): when `parse_nace_activities` matches a section heading it
records as section description the result of the bounded scan (window start
offsets i+1 through i+9, each window being the next 3 lines joined with
single spaces): the empty string when no window contains the literal
"This section includes", and otherwise the text of the first such window
following the marker — extending to the window's end (truncated at a second
marker occurrence), trimmed; since the joined window contains no newline,
text on up to two lines after the marker's own line is included. -/
theorem C7_section_description_scan :
    (∀ (line : Str) (rest : List Str) (st : PState) (c n : Str),
      classifyLine line = .sectionHead c n →
      lineStep line rest st =
        .ok { st with sec := ⟨c, n, scanDescAux (str "This section includes") rest 9⟩ }) ∧
    (∀ rest : List Str,
      scanDescAux (str "This section includes") rest 9 =
        (match (List.range 9).find?
            (fun k => isSubstrOf (str "This section includes") (windowAt rest k)) with
        | some k => extractDesc (str "This section includes") (windowAt rest k)
        | none => [])) :=
  ⟨lineStep_eq_sectionHead,
   fun rest => scanDescAux_characterisation (str "This section includes") 9 rest (by decide)⟩

theorem C7_witness :
    lineStep (str "# Section A – Ag") [] initState =
      .ok { initState with
            sec := ⟨str "A", str "Ag", scanDescAux (str "This section includes") [] 9⟩ } :=
  C7_section_description_scan.1 (str "# Section A – Ag") [] initState (str "A") (str "Ag")
    (by rfl)

theorem heading_nameOf_isSome (line : Str) (h : isHeadingLine line = true) :
    (sectionNameOf? line).isSome := by
  have hdash : ∃ d, d ∈ line ∧ isDashCh d = true := by
    unfold isHeadingLine at h
    split at h
    · split at h
      · rename_i c rest hdrop
        rw [Bool.and_eq_true] at h
        obtain ⟨hcz, h2⟩ := h
        split at h2
        · rename_i d rest2 hdw
          refine ⟨d, ?_, h2⟩
          have hd1 : d ∈ rest.dropWhile (fun x => x = ' ' || x = '\t') := by
            rw [hdw]; exact List.mem_cons_self _ _
          have hd2 : d ∈ rest := (List.dropWhile_sublist _).subset hd1
          have hd3 : d ∈ line.drop 10 := by
            rw [hdrop]; exact List.mem_cons_of_mem _ hd2
          exact (List.drop_sublist _ _).subset hd3
        · exact absurd h2 (by simp)
      · exact absurd h (by simp)
    · exact absurd h (by simp)
  obtain ⟨d, hdmem, hdsh⟩ := hdash
  unfold sectionNameOf?
  split
  · rfl
  · split
    · rfl
    · split
      · rfl
      · rename_i h1 h2 h3
        exfalso
        simp only [isDashCh, Bool.or_eq_true, decide_eq_true_eq] at hdsh
        rcases hdsh with (rfl | rfl) | rfl
        · exact h1 (List.elem_iff.mpr hdmem)
        · exact h2 (List.elem_iff.mpr hdmem)
        · exact h3 (List.elem_iff.mpr hdmem)

theorem segLoop_some : ∀ (ls : List Str) (nm : Str) (acc : List Str), acc ≠ [] →
    segLoop ls (some nm) acc =
      ⟨nm, joinWith '\n' (acc ++ ((ls.map pyStrip).takeWhile (fun l => !isHeadingLine l)))⟩ ::
        chunkSpec ((ls.map pyStrip).dropWhile (fun l => !isHeadingLine l)) := by
  intro ls
  induction ls with
  | nil =>
    intro nm acc hacc
    show (if acc.isEmpty then ([] : List SectionSeg) else [⟨nm, joinWith '\n' acc⟩]) = _
    rw [if_neg (by simpa [List.isEmpty_iff] using hacc)]
    simp [chunkSpec]
  | cons l rest ih =>
    intro nm acc hacc
    unfold segLoop
    by_cases hh : isHeadingLine (pyStrip l) = true
    · rw [if_pos hh]
      obtain ⟨nm2, hnm2⟩ := Option.isSome_iff_exists.mp (heading_nameOf_isSome _ hh)
      show (⟨nm, joinWith '\n' acc⟩ :: ([] : List SectionSeg)) ++
          segLoop rest
            (match sectionNameOf? (pyStrip l) with
             | some nm => some nm
             | none => some nm) [pyStrip l] = _
      rw [hnm2]
      rw [show (match (some nm2 : Option Str) with
          | some nm => some nm
          | none => some nm) = some nm2 from rfl]
      rw [ih nm2 [pyStrip l] (by simp)]
      simp only [List.map_cons, List.takeWhile_cons, List.dropWhile_cons, hh,
        Bool.not_true, Bool.false_eq_true, if_false, List.append_nil, List.singleton_append,
        List.cons_append]
      rw [chunkSpec]
      simp [hnm2]
    · rw [if_neg hh]
      show segLoop rest (some nm) (acc ++ [pyStrip l]) = _
      rw [ih nm (acc ++ [pyStrip l]) (by simp)]
      have hh2 : isHeadingLine (pyStrip l) = false := by
        rw [Bool.not_eq_true] at hh; exact hh
      simp only [List.map_cons, List.takeWhile_cons, List.dropWhile_cons, hh2,
        Bool.not_false, if_true, List.append_assoc, List.cons_append, List.nil_append]

theorem segLoop_none : ∀ (ls : List Str) (acc : List Str),
    segLoop ls none acc =
      chunkSpec ((ls.map pyStrip).dropWhile (fun l => !isHeadingLine l)) := by
  intro ls
  induction ls with
  | nil =>
    intro acc
    show ([] : List SectionSeg) = chunkSpec []
    rw [chunkSpec]
  | cons l rest ih =>
    intro acc
    unfold segLoop
    by_cases hh : isHeadingLine (pyStrip l) = true
    · rw [if_pos hh]
      obtain ⟨nm2, hnm2⟩ := Option.isSome_iff_exists.mp (heading_nameOf_isSome _ hh)
      show ([] : List SectionSeg) ++
          segLoop rest
            (match sectionNameOf? (pyStrip l) with
             | some nm => some nm
             | none => none) [pyStrip l] = _
      rw [hnm2]
      rw [show (match (some nm2 : Option Str) with
          | some nm => some nm
          | none => none) = some nm2 from rfl]
      rw [segLoop_some rest nm2 [pyStrip l] (by simp)]
      simp only [List.map_cons, List.dropWhile_cons, hh, Bool.not_true,
        Bool.false_eq_true, if_false, List.nil_append, List.singleton_append]
      rw [chunkSpec]
      simp [hnm2]
    · rw [if_neg hh]
      show segLoop rest none acc = _
      rw [ih acc]
      have hh2 : isHeadingLine (pyStrip l) = false := by
        rw [Bool.not_eq_true] at hh; exact hh
      simp only [List.map_cons, List.dropWhile_cons, hh2, Bool.not_false, if_true]

/-- C9 counterexample: the claim says each entry's content consists of
exactly the lines from the heading to the next heading, preserving the
original lines. The code strips every line before accumulating it, so for an
input with an indented body line the returned content differs from the
original lines joined by newlines. -/
theorem C9_counterexample :
    split_nace_by_sections "# Section A – X\n  indented" =
      [⟨str "# Section A", str "# Section A – X\nindented"⟩] ∧
    str "# Section A – X\nindented" ≠
      joinWith '\n' [str "# Section A – X", str "  indented"] := ⟨rfl, by decide⟩

/-- C9 (amended): `split_nace_by_sections` returns one entry per
section-heading line, whose name is the stripped text of the stripped
heading line before the first separator found (trying `–`, then `—`, then
`-` in that order), and whose content consists of the STRIPPED lines from
that heading (inclusive) up to the next section heading (exclusive), joined
with newlines in original order; all lines before the first section heading
are discarded. Formally: the segmenter equals the reference chunker
`chunkSpec` applied to the stripped lines with the pre-heading prefix
dropped. -/
theorem C9_segmenter_is_chunker (text : String) :
    split_nace_by_sections text =
      chunkSpec (((splitOnChar '\n' text.toList).map pyStrip).dropWhile
        (fun l => !isHeadingLine l)) :=
  segLoop_none (splitOnChar '\n' text.toList) []
